import Mathlib

/-!
# vnc-recorder: the recording pipeline of `main.go`

A shallow embedding of `recorder` and `gracefulClose` (src/main.go).

The program is effectful and runs two goroutines that matter here: the main
goroutine (the dispatch loop of `recorder`, lines 191-222, with its deferred
calls) and the frame pacer goroutine (lines 166-183).  Each goroutine is
embedded as a pure function from what it observes (the events its `select`
receives, the values it reads from shared variables and from the clock) to
the ordered list of effects it performs.  The one way in which the pacer ends
the main goroutine, its panic at a frame rate of 0, is part of `recorder`.

Conventions.
* `time.Duration` is an `int64` count of nanoseconds; it is an `Int` here.
  The only product formed, `(1000 / F) * time.Millisecond`, has absolute value
  at most `10^9`, so it never leaves the `int64` range (`period_int64`).
* `time.Time` values are readings of the process clock in nanoseconds (`Int`);
  `Time.Add` and `Time.Sub` are addition and subtraction.
* Go `int` is taken to be 64 bits wide; the one `int` that is incremented,
  `frameBufferReq`, wraps around with `wrapInt64`.
* `log.Info`, `log.Infof` and `log.Debugf` print nothing: `init` sets the
  level to `log.WarnLevel`.  They are not effects of the model.
* The floating point metric of lines 204-206 is only passed to `log.Debugf`
  and is not modelled.
-/

namespace VncRecorder

/-! ## Data model -/

/-- Go `time.Duration`: nanoseconds. -/
abbrev Duration := Int

/-- Go `time.Time`, as a clock reading in nanoseconds. -/
abbrev Time := Int

/-- Go `time.Millisecond`. -/
def Millisecond : Duration := 1000000

/-- Go `time.Second`. -/
def Second : Duration := 1000000000

/-- Contents of the canvas (`screenImage.Image`) at one instant. -/
structure Image where
  pixels : List Nat
  deriving DecidableEq, Repr

/-- Go `exec.Cmd`, the fields set by `exec.Command`. -/
structure Cmd where
  Path : String
  Args : List String
  deriving DecidableEq, Repr

/-- Go `exec.Command(name, arg...)`: `Args` holds `name` followed by `arg`;
`Path` is `name` itself when, as here, it is already the result of
`exec.LookPath`. -/
def Command (name : String) (arg : List String) : Cmd :=
  { Path := name, Args := name :: arg }

/-- Go `strconv.Itoa`: the base 10 rendering of an `int`. -/
def Itoa (i : Int) : String := toString i

/-- The `encoders.Encoder` handle, the fields `recorder` sets. -/
structure Encoder where
  BinPath : String
  Framerate : Int
  Cmd : Cmd
  deriving DecidableEq, Repr

/-- The termination signals registered with `signal.Notify` (lines 186-190). -/
inductive Signal where
  | SIGHUP
  | SIGINT
  | SIGTERM
  | SIGQUIT
  deriving DecidableEq, Repr

/-- A Go `error` value. -/
structure GoError where
  msg : String
  deriving DecidableEq, Repr

/-- A `vnc.ServerMessage`; `msgType` is the result of its `Type()` method,
the only part `recorder` inspects. -/
structure ServerMessage where
  msgType : Nat
  deriving DecidableEq, Repr

/-- A `vnc.ClientMessage`; `msgType` is the result of its `Type()` method. -/
structure ClientMessage where
  msgType : Nat
  deriving DecidableEq, Repr

/-- The library constant `vnc.FramebufferUpdateMsgType` (RFB message type 0). -/
def FramebufferUpdateMsgType : Nat := 0

/-- The `vnc.FramebufferUpdateRequest` message. -/
structure FramebufferUpdateRequest where
  Inc : Nat
  X : Nat
  Y : Nat
  Width : Nat
  Height : Nat
  deriving DecidableEq, Repr

/-- The client connection `cc`, as far as `recorder` reads it. -/
structure ClientConn where
  Width : Nat
  Height : Nat
  deriving DecidableEq, Repr

/-- What one `select` of the dispatch loop receives (lines 197-221). -/
inductive Event where
  | error (err : GoError)
  | client (msg : ClientMessage)
  | server (msg : ServerMessage)
  | signal (sig : Option Signal)
  deriving DecidableEq, Repr

/-- The observable actions of the two goroutines. -/
inductive Effect where
  | recv (ev : Event)
  | writeReq (req : FramebufferUpdateRequest)
  | setRunning (b : Bool)
  | sleep (d : Duration)
  | encoderClose (e : Encoder)
  | connClose
  | netClose
  | encode (img : Image)
  deriving DecidableEq, Repr

/-- How the main goroutine leaves (or does not leave) the dispatch loop. -/
inductive Exit where
  | returned
  | panicked (err : GoError)
  | waiting
  deriving DecidableEq, Repr

/-- The variables of `recorder` that change, and the effects performed so far. -/
structure State where
  vcodecRunning : Bool
  frameBufferReq : Int
  trace : List Effect
  deriving DecidableEq, Repr

/-- Two's complement wrap-around of a 64 bit Go `int`. -/
def wrapInt64 (x : Int) : Int := (x + 2 ^ 63) % 2 ^ 64 - 2 ^ 63

/-! ## The encoder command (lines 136-150) -/

/-- The `vcodec` value built by `recorder`. -/
def vcodec (ffmpegPath : String) (framerate : Int) (outfile : String) : Encoder :=
  { BinPath := ffmpegPath
    Framerate := framerate
    Cmd := Command ffmpegPath
      ["-f", "image2pipe",
       "-vcodec", "ppm",
       "-framerate", Itoa framerate,
       "-i", "-",
       "-an",
       "-y",
       "-vcodec", "libx264",
       "-pix_fmt", "yuv420p",
       outfile] }

/-! ## Shutdown (lines 225-234) -/

/-- Append one effect to the trace. -/
def State.emit (st : State) (x : Effect) : State :=
  { st with trace := st.trace ++ [x] }

/-- The assignment `*vcodecRunning = b`. -/
def State.storeRunning (st : State) (b : Bool) : State :=
  { st with vcodecRunning := b, trace := st.trace ++ [Effect.setRunning b] }

/-- The function `gracefulClose(e, vcodecRunning)`. -/
def gracefulClose (e : Encoder) (st : State) : State :=
  let st := st.storeRunning false
  let st := st.emit (Effect.sleep (1 * Second))
  let st := st.emit (Effect.encoderClose e)
  let st := st.emit (Effect.sleep (5 * Second))
  st

/-! ## The dispatch loop (lines 191-222) -/

/-- One iteration of the `select`: the new state, and the exit if the loop is left. -/
def handleEvent (cc : ClientConn) (st : State) (ev : Event) : State × Option Exit :=
  let st := st.emit (Effect.recv ev)
  match ev with
  | Event.error err => (st, some (Exit.panicked err))
  | Event.client _ => (st, none)
  | Event.server msg =>
    if msg.msgType = FramebufferUpdateMsgType then
      let st := { st with frameBufferReq := wrapInt64 (st.frameBufferReq + 1) }
      let reqMsg : FramebufferUpdateRequest :=
        { Inc := 1, X := 0, Y := 0, Width := cc.Width, Height := cc.Height }
      (st.emit (Effect.writeReq reqMsg), none)
    else (st, none)
  | Event.signal sig =>
    if sig ≠ none then (st, some Exit.returned) else (st, none)

/-- The `for { select { ... } }` loop over the events received; when the
events run out the `select` blocks (`Exit.waiting`). -/
def dispatchLoop (cc : ClientConn) (st : State) : List Event → State × Exit
  | [] => (st, Exit.waiting)
  | ev :: rest =>
    match handleEvent cc st ev with
    | (st1, some x) => (st1, x)
    | (st1, none) => dispatchLoop cc st1 rest

/-- The deferred calls of `recorder`, run last in first out when the function
is left, by `return` and by `panic` alike: `gracefulClose` (line 194),
`cc.Close()` (line 123), `nc.Close()` (line 88). -/
def runDeferred (e : Encoder) (st : State) : State :=
  let st := gracefulClose e st
  let st := st.emit Effect.connClose
  let st := st.emit Effect.netClose
  st

/-- The state in which `recorder` enters the dispatch loop:
`vcodecRunning := true` (line 153), `frameBufferReq := 0` (line 191). -/
def initState : State :=
  { vcodecRunning := true, frameBufferReq := 0, trace := [] }

/-! ## The frame pacer goroutine (lines 166-183) -/

/-- What one iteration of the pacer reads: the clock at line 168, the flag at
line 170, the canvas at line 171, the clock at line 178. -/
structure TickObs where
  timeStart : Time
  vcodecRunning : Bool
  image : Image
  timeNow : Time
  deriving DecidableEq, Repr

/-- How one iteration of the pacer ends. -/
inductive TickExit where
  | next
  | stopped
  | divideByZero
  deriving DecidableEq, Repr

/-- The duration `(1000 / time.Duration(Framerate)) * time.Millisecond` of
line 177; Go integer division truncates toward zero and panics on a zero
divisor (`none`). -/
def period (framerate : Int) : Option Duration :=
  if framerate = 0 then none
  else some (Int.tdiv 1000 framerate * Millisecond)

/-- One iteration of the pacer loop. -/
def pacerTick (e : Encoder) (o : TickObs) : List Effect × TickExit :=
  let timeStart := o.timeStart
  if o.vcodecRunning then
    match period e.Framerate with
    | none => ([Effect.encode o.image], TickExit.divideByZero)
    | some d =>
      let timeTarget := timeStart + d
      let timeLeft := timeTarget - o.timeNow
      if timeLeft > 0 then
        ([Effect.encode o.image, Effect.sleep timeLeft], TickExit.next)
      else ([Effect.encode o.image], TickExit.next)
  else ([], TickExit.stopped)

/-- The pacer loop over the observations of its successive iterations; when
they run out the goroutine is still running (`TickExit.next`). -/
def pacerLoop (e : Encoder) : List TickObs → List Effect × TickExit
  | [] => ([], TickExit.next)
  | o :: rest =>
    match pacerTick e o with
    | (fx, TickExit.next) =>
      let r := pacerLoop e rest
      (fx ++ r.1, r.2)
    | (fx, x) => (fx, x)

/-! ## The function `recorder` as a whole -/

/-- The function `recorder` from line 136 on, after the connection and the
negotiation succeeded and `ffmpeg` was found: it builds `vcodec`, sets
`vcodecRunning := true`, starts the pacer goroutine (line 166), sets
`frameBufferReq := 0`, registers the deferred `gracefulClose` and dispatches
the events.  The result is the state and the exit of the main goroutine, or
`none` when the process is ended by the pacer.

The pacer goroutine is started with the flag `true` and begins its first
iteration at once.  With a frame rate of 0 that iteration panics at line 177
(integer divide by zero, `period` is `none`); nothing recovers the panic, and
an unrecovered panic in any goroutine ends the whole Go process: no drain is
completed, and nothing is said about the state of the main goroutine (`none`).
With any other frame rate the pacer does not panic.

The loop is left by `return nil` (line 219) or by `panic(err)` (line 199).
In Go a panicking function stops, runs its deferred calls as usual and only
then hands the panic to its caller (language specification, "Handling
panics"), so the deferred calls run on both exits.  While the loop is still
waiting for an event nothing deferred has run. -/
def recorder (ffmpegPath : String) (framerate : Int) (outfile : String)
    (cc : ClientConn) (evs : List Event) : Option (State × Exit) :=
  let e := vcodec ffmpegPath framerate outfile
  match period e.Framerate with
  | none => none
  | some _ =>
    match dispatchLoop cc initState evs with
    | (st, Exit.waiting) => some (st, Exit.waiting)
    | (st, x) => some (runDeferred e st, x)

/-- The images submitted to the encoder, in order. -/
def encodes : List Effect → List Image
  | [] => []
  | Effect.encode img :: rest => img :: encodes rest
  | _ :: rest => encodes rest

/-- The update requests written to the session, in order. -/
def requests : List Effect → List FramebufferUpdateRequest
  | [] => []
  | Effect.writeReq r :: rest => r :: requests rest
  | _ :: rest => requests rest

/-- The completion messages received: the framebuffer updates among the
server messages the dispatch loop took from `cchServer`, in order. -/
def completions : List Effect → List ServerMessage
  | [] => []
  | Effect.recv (Event.server msg) :: rest =>
    if msg.msgType = FramebufferUpdateMsgType then msg :: completions rest
    else completions rest
  | _ :: rest => completions rest

/-- An event on which the dispatch loop is left: an error, or a signal that
is not nil. -/
def Event.terminates : Event → Bool
  | Event.error _ => true
  | Event.signal (some _) => true
  | _ => false

/-- A termination signal that is not nil. -/
def Event.isTermSignal : Event → Bool
  | Event.signal (some _) => true
  | _ => false

/-- Every request of the trace comes right after the receipt of a
framebuffer update message. -/
def RequestsFollowCompletions (t : List Effect) : Prop :=
  ∀ (pre post : List Effect) (r : FramebufferUpdateRequest),
    t = pre ++ Effect.writeReq r :: post →
    ∃ (pre2 : List Effect) (m : ServerMessage),
      pre = pre2 ++ [Effect.recv (Event.server m)] ∧ m.msgType = FramebufferUpdateMsgType

/-! ## Projections of a trace -/

theorem requests_append (a b : List Effect) :
    requests (a ++ b) = requests a ++ requests b := by
  induction a with
  | nil => rfl
  | cons x a ih => cases x <;> simp [requests, ih]

theorem completions_append (a b : List Effect) :
    completions (a ++ b) = completions a ++ completions b := by
  induction a with
  | nil => rfl
  | cons x a ih =>
    cases x with
    | recv ev =>
      cases ev with
      | server msg => by_cases h : msg.msgType = FramebufferUpdateMsgType <;> simp [completions, ih, h]
      | _ => simp [completions, ih]
    | _ => simp [completions, ih]

theorem encodes_append (a b : List Effect) :
    encodes (a ++ b) = encodes a ++ encodes b := by
  induction a with
  | nil => rfl
  | cons x a ih => cases x <;> simp [encodes, ih]

/-! ## Shutdown sequence -/

/-- C1: for every encoder handle and every state (so every initial value of
the flag), `gracefulClose` appends exactly the effects: store `false` to the
flag, sleep 1 s, close the encoder, sleep 5 s; it leaves the flag `false`; and
a close among the appended effects has exactly the store and the 1 s sleep
before it. -/
theorem gracefulClose_effects (e : Encoder) (st : State) :
    (gracefulClose e st).trace = st.trace ++
        [Effect.setRunning false, Effect.sleep 1000000000,
         Effect.encoderClose e, Effect.sleep 5000000000]
    ∧ (gracefulClose e st).vcodecRunning = false
    ∧ (gracefulClose e st).frameBufferReq = st.frameBufferReq
    ∧ ∀ (pre post : List Effect) (e1 : Encoder),
        (gracefulClose e st).trace = st.trace ++ (pre ++ Effect.encoderClose e1 :: post) →
        pre = [Effect.setRunning false, Effect.sleep 1000000000]
          ∧ e1 = e ∧ post = [Effect.sleep 5000000000] := by
  have htrace : (gracefulClose e st).trace = st.trace ++
        [Effect.setRunning false, Effect.sleep 1000000000,
         Effect.encoderClose e, Effect.sleep 5000000000] := by
    simp [gracefulClose, State.emit, State.storeRunning, Second]
  refine ⟨htrace, by simp [gracefulClose, State.emit, State.storeRunning],
    by simp [gracefulClose, State.emit, State.storeRunning], ?_⟩
  intro pre post e1 h
  rw [htrace] at h
  have h2 := List.append_cancel_left h
  rcases pre with _ | ⟨a, _ | ⟨b, _ | ⟨c, _ | ⟨d, pre⟩⟩⟩⟩ <;> simp_all

/-- Instance of C1 with the flag initially `true` and an empty trace. -/
theorem gracefulClose_effects_witness :
    (gracefulClose (vcodec "ffmpeg" 30 "output.mp4") initState).trace =
        [Effect.setRunning false, Effect.sleep 1000000000,
         Effect.encoderClose (vcodec "ffmpeg" 30 "output.mp4"), Effect.sleep 5000000000]
    ∧ (gracefulClose (vcodec "ffmpeg" 30 "output.mp4") initState).vcodecRunning = false :=
  ⟨(gracefulClose_effects (vcodec "ffmpeg" 30 "output.mp4") initState).1,
   (gracefulClose_effects (vcodec "ffmpeg" 30 "output.mp4") initState).2.1⟩

/-! ## The encoder command -/

/-- C9: for every frame rate `F` and output path `P` (and every executable
path), the command has the program name followed by exactly the fifteen
arguments `-f image2pipe -vcodec ppm -framerate Itoa(F) -i - -an -y -vcodec
libx264 -pix_fmt yuv420p P`, and the `F` rendered is the `Framerate` stored in
the handle, from which the pacer computes its period. -/
theorem vcodec_command (ffmpegPath : String) (F : Int) (P : String) :
    (vcodec ffmpegPath F P).Cmd.Args.tail =
        ["-f", "image2pipe", "-vcodec", "ppm", "-framerate", Itoa F, "-i", "-",
         "-an", "-y", "-vcodec", "libx264", "-pix_fmt", "yuv420p", P]
    ∧ (vcodec ffmpegPath F P).Cmd.Args.head? = some ffmpegPath
    ∧ (vcodec ffmpegPath F P).Cmd.Path = ffmpegPath
    ∧ (vcodec ffmpegPath F P).BinPath = ffmpegPath
    ∧ (vcodec ffmpegPath F P).Framerate = F
    ∧ (vcodec ffmpegPath F P).Cmd.Args.get? 6 = some (Itoa (vcodec ffmpegPath F P).Framerate)
    ∧ period (vcodec ffmpegPath F P).Framerate = period F
    ∧ Itoa 30 = "30" ∧ Itoa 60 = "60" := by
  refine ⟨rfl, rfl, rfl, rfl, rfl, rfl, rfl, by decide, by decide⟩

/-! ## The update requester -/

/-- C5: for every server message the dispatch loop receives, in every state:
the loop goes on, and the effects of the iteration are the receipt followed,
when the type is the framebuffer update type, by exactly one request
`Inc = 1, X = 0, Y = 0, Width = cc.Width, Height = cc.Height`, and by nothing
when the type is any other. -/
theorem handleEvent_server (cc : ClientConn) (st : State) (msg : ServerMessage) :
    (handleEvent cc st (Event.server msg)).2 = none
    ∧ (handleEvent cc st (Event.server msg)).1.trace =
        st.trace ++ Effect.recv (Event.server msg) ::
          (if msg.msgType = FramebufferUpdateMsgType then
            [Effect.writeReq
              { Inc := 1, X := 0, Y := 0, Width := cc.Width, Height := cc.Height }]
           else [])
    ∧ requests (handleEvent cc st (Event.server msg)).1.trace =
        requests st.trace ++
          (if msg.msgType = FramebufferUpdateMsgType then
            [{ Inc := 1, X := 0, Y := 0, Width := cc.Width, Height := cc.Height }]
           else []) := by
  have htrace : (handleEvent cc st (Event.server msg)).1.trace =
        st.trace ++ Effect.recv (Event.server msg) ::
          (if msg.msgType = FramebufferUpdateMsgType then
            [Effect.writeReq
              { Inc := 1, X := 0, Y := 0, Width := cc.Width, Height := cc.Height }]
           else []) := by
    by_cases h : msg.msgType = FramebufferUpdateMsgType <;>
      simp [handleEvent, State.emit, h]
  refine ⟨?_, htrace, ?_⟩
  · by_cases h : msg.msgType = FramebufferUpdateMsgType <;> simp [handleEvent, h]
  · rw [htrace, requests_append]
    by_cases h : msg.msgType = FramebufferUpdateMsgType <;> simp [requests, h]

/-! ## The dispatch loop -/

theorem handleEvent_continues (cc : ClientConn) (st : State) (ev : Event)
    (h : ev.terminates = false) : (handleEvent cc st ev).2 = none := by
  cases ev with
  | error err => simp [Event.terminates] at h
  | client msg => rfl
  | server msg =>
    by_cases hm : msg.msgType = FramebufferUpdateMsgType <;> simp [handleEvent, hm]
  | signal sig =>
    cases sig with
    | none => simp [handleEvent]
    | some s => simp [Event.terminates] at h

theorem handleEvent_leaves (cc : ClientConn) (st : State) (ev : Event)
    (h : ev.terminates = true) :
    ∃ x, handleEvent cc st ev = (st.emit (Effect.recv ev), some x) ∧ x ≠ Exit.waiting := by
  cases ev with
  | error err => exact ⟨Exit.panicked err, rfl, by simp⟩
  | client msg => simp [Event.terminates] at h
  | server msg => simp [Event.terminates] at h
  | signal sig =>
    cases sig with
    | none => simp [Event.terminates] at h
    | some s => exact ⟨Exit.returned, by simp [handleEvent], by simp⟩

theorem handleEvent_flag (cc : ClientConn) (st : State) (ev : Event) :
    (handleEvent cc st ev).1.vcodecRunning = st.vcodecRunning := by
  cases ev with
  | server msg =>
    by_cases hm : msg.msgType = FramebufferUpdateMsgType <;>
      simp [handleEvent, State.emit, hm]
  | signal sig => cases sig <;> simp [handleEvent, State.emit]
  | _ => simp [handleEvent, State.emit]

theorem handleEvent_count (cc : ClientConn) (st : State) (ev : Event) (x : Effect)
    (h1 : ∀ ev1, x ≠ Effect.recv ev1) (h2 : ∀ r, x ≠ Effect.writeReq r) :
    (handleEvent cc st ev).1.trace.count x = st.trace.count x := by
  have hr : (Effect.recv ev == x) = false := by
    simpa using fun h => h1 ev h.symm
  cases ev with
  | server msg =>
    by_cases hm : msg.msgType = FramebufferUpdateMsgType
    · have hw : (Effect.writeReq
          { Inc := 1, X := 0, Y := 0, Width := cc.Width, Height := cc.Height } == x) = false := by
        simpa using fun h => h2 _ h.symm
      simp [handleEvent, State.emit, hm, List.count_cons, hr, hw]
    · simp [handleEvent, State.emit, hm, List.count_cons, hr]
  | signal sig => cases sig <;> simp [handleEvent, State.emit, List.count_cons, hr]
  | _ => simp [handleEvent, State.emit, List.count_cons, hr]

theorem dispatchLoop_cons_continue (cc : ClientConn) (st : State) (ev : Event)
    (rest : List Event) (h : ev.terminates = false) :
    dispatchLoop cc st (ev :: rest) = dispatchLoop cc (handleEvent cc st ev).1 rest := by
  have h2 := handleEvent_continues cc st ev h
  rcases hE : handleEvent cc st ev with ⟨st1, x⟩
  rw [hE] at h2
  simp only at h2
  subst h2
  simp [dispatchLoop, hE]

theorem dispatchLoop_cons_leave (cc : ClientConn) (st : State) (ev : Event)
    (rest : List Event) (h : ev.terminates = true) :
    ∃ x, dispatchLoop cc st (ev :: rest) = (st.emit (Effect.recv ev), x)
      ∧ handleEvent cc st ev = (st.emit (Effect.recv ev), some x) ∧ x ≠ Exit.waiting := by
  obtain ⟨x, hx, hne⟩ := handleEvent_leaves cc st ev h
  exact ⟨x, by simp [dispatchLoop, hx], hx, hne⟩

theorem dispatchLoop_append (cc : ClientConn) (pre rest : List Event) (st : State)
    (h : ∀ ev ∈ pre, ev.terminates = false) :
    dispatchLoop cc st (pre ++ rest) = dispatchLoop cc (dispatchLoop cc st pre).1 rest := by
  induction pre generalizing st with
  | nil => rfl
  | cons ev pre ih =>
    have hev := h ev (List.mem_cons_self _ _)
    have hpre : ∀ e ∈ pre, e.terminates = false :=
      fun e he => h e (List.mem_cons_of_mem _ he)
    rw [List.cons_append, dispatchLoop_cons_continue cc st ev _ hev,
      dispatchLoop_cons_continue cc st ev _ hev]
    exact ih _ hpre

theorem dispatchLoop_flag (cc : ClientConn) (evs : List Event) (st : State) :
    (dispatchLoop cc st evs).1.vcodecRunning = st.vcodecRunning := by
  induction evs generalizing st with
  | nil => rfl
  | cons ev evs ih =>
    cases hT : ev.terminates with
    | false =>
      rw [dispatchLoop_cons_continue cc st ev _ hT, ih, handleEvent_flag]
    | true =>
      obtain ⟨x, hx, _, _⟩ := dispatchLoop_cons_leave cc st ev evs hT
      rw [hx]; rfl

theorem dispatchLoop_count (cc : ClientConn) (evs : List Event) (st : State) (x : Effect)
    (h1 : ∀ ev1, x ≠ Effect.recv ev1) (h2 : ∀ r, x ≠ Effect.writeReq r) :
    (dispatchLoop cc st evs).1.trace.count x = st.trace.count x := by
  induction evs generalizing st with
  | nil => rfl
  | cons ev evs ih =>
    cases hT : ev.terminates with
    | false =>
      rw [dispatchLoop_cons_continue cc st ev _ hT, ih, handleEvent_count cc st ev x h1 h2]
    | true =>
      obtain ⟨y, hy, hy2, _⟩ := dispatchLoop_cons_leave cc st ev evs hT
      have := handleEvent_count cc st ev x h1 h2
      rw [hy2] at this
      rw [hy]; exact this

theorem dispatchLoop_leaves (cc : ClientConn) (evs : List Event) (st : State)
    (h : ∃ ev ∈ evs, ev.terminates = true) :
    (dispatchLoop cc st evs).2 ≠ Exit.waiting := by
  induction evs generalizing st with
  | nil => simp at h
  | cons ev evs ih =>
    cases hT : ev.terminates with
    | false =>
      rw [dispatchLoop_cons_continue cc st ev _ hT]
      apply ih
      obtain ⟨e, he, het⟩ := h
      rcases List.mem_cons.mp he with rfl | he
      · rw [hT] at het; cases het
      · exact ⟨e, he, het⟩
    | true =>
      obtain ⟨y, hy, _, hne⟩ := dispatchLoop_cons_leave cc st ev evs hT
      rw [hy]; exact hne

theorem period_isSome (F : Int) (hF : F ≠ 0) : ∃ d, period F = some d := by
  exact ⟨Int.tdiv 1000 F * Millisecond, by simp [period, hF]⟩

theorem recorder_framerate_zero (ffmpegPath : String) (outfile : String)
    (cc : ClientConn) (evs : List Event) :
    recorder ffmpegPath 0 outfile cc evs = none := by
  simp [recorder, vcodec, period]

theorem recorder_of_leaves (ffmpegPath : String) (F : Int) (outfile : String)
    (cc : ClientConn) (evs : List Event) (hF : F ≠ 0)
    (h : (dispatchLoop cc initState evs).2 ≠ Exit.waiting) :
    recorder ffmpegPath F outfile cc evs =
      some (runDeferred (vcodec ffmpegPath F outfile) (dispatchLoop cc initState evs).1,
        (dispatchLoop cc initState evs).2) := by
  obtain ⟨d, hd⟩ := period_isSome F hF
  have hp : period (vcodec ffmpegPath F outfile).Framerate = some d := hd
  rcases hD : dispatchLoop cc initState evs with ⟨st, x⟩
  rw [hD] at h
  cases x with
  | waiting => exact absurd rfl h
  | returned => simp [recorder, hD, hp]
  | panicked err => simp [recorder, hD, hp]

theorem runDeferred_eq (e : Encoder) (st : State) :
    runDeferred e st =
      { vcodecRunning := false, frameBufferReq := st.frameBufferReq,
        trace := st.trace ++
          [Effect.setRunning false, Effect.sleep 1000000000, Effect.encoderClose e,
           Effect.sleep 5000000000, Effect.connClose, Effect.netClose] } := by
  simp [runDeferred, gracefulClose, State.emit, State.storeRunning, Second]

/-! ## A fatal error of the session -/

/-- C2, as stated, fails: on the single event "error EOF", at 30 frames per
second, `recorder` leaves by panic and its deferred `gracefulClose` has run:
the flag is cleared, both sleeps and the close of the encoder are in the
trace. -/
theorem recorder_error_runs_gracefulClose :
    recorder "ffmpeg" 30 "output.mp4" { Width := 100, Height := 100 }
        [Event.error { msg := "EOF" }] =
      some ({ vcodecRunning := false, frameBufferReq := 0,
              trace := [Effect.recv (Event.error { msg := "EOF" }),
                Effect.setRunning false, Effect.sleep 1000000000,
                Effect.encoderClose (vcodec "ffmpeg" 30 "output.mp4"),
                Effect.sleep 5000000000, Effect.connClose, Effect.netClose] },
            Exit.panicked { msg := "EOF" }) := by
  rfl

/-- C2, amended: with a frame rate other than 0 (so that the pacer does not
end the process), for every error received from `errorCh` while the loop is
dispatching (after any events that do not end the loop), `recorder` leaves by
panic with that error, and before the panic leaves `recorder` the deferred
calls have run: the flag is cleared, 1 s is waited, the encoder is closed, 5 s
are waited, then `cc` and `nc` are closed; the encoder is closed exactly once. -/
theorem recorder_error_drains_once (ffmpegPath : String) (F : Int) (outfile : String)
    (cc : ClientConn) (pre post : List Event) (err : GoError)
    (hF : F ≠ 0) (h : ∀ ev ∈ pre, ev.terminates = false) :
    recorder ffmpegPath F outfile cc (pre ++ Event.error err :: post) =
      some ({ vcodecRunning := false,
              frameBufferReq := (dispatchLoop cc initState pre).1.frameBufferReq,
              trace := (dispatchLoop cc initState pre).1.trace ++
                [Effect.recv (Event.error err),
                 Effect.setRunning false, Effect.sleep 1000000000,
                 Effect.encoderClose (vcodec ffmpegPath F outfile),
                 Effect.sleep 5000000000, Effect.connClose, Effect.netClose] },
            Exit.panicked err)
    ∧ ((dispatchLoop cc initState pre).1.trace ++
           [Effect.recv (Event.error err),
            Effect.setRunning false, Effect.sleep 1000000000,
            Effect.encoderClose (vcodec ffmpegPath F outfile),
            Effect.sleep 5000000000, Effect.connClose, Effect.netClose]).count
        (Effect.encoderClose (vcodec ffmpegPath F outfile)) = 1 := by
  have hD : dispatchLoop cc initState (pre ++ Event.error err :: post) =
      ((dispatchLoop cc initState pre).1.emit (Effect.recv (Event.error err)),
        Exit.panicked err) := by
    rw [dispatchLoop_append cc pre _ initState h]; rfl
  have hR := recorder_of_leaves ffmpegPath F outfile cc (pre ++ Event.error err :: post) hF
    (by rw [hD]; simp)
  rw [hD] at hR
  refine ⟨?_, ?_⟩
  · rw [hR, runDeferred_eq]; simp [State.emit]
  · have h0 := dispatchLoop_count cc pre initState
      (Effect.encoderClose (vcodec ffmpegPath F outfile)) (by simp) (by simp)
    simp only [List.count_append, h0]
    simp [initState, List.count_cons]

/-- Instance of C2 (amended): one framebuffer update, then the error "EOF",
at 30 frames per second. -/
theorem recorder_error_drains_once_witness :
    (30 : Int) ≠ 0
    ∧ (∀ ev ∈ [Event.server { msgType := 0 }], ev.terminates = false)
    ∧ recorder "ffmpeg" 30 "output.mp4" { Width := 100, Height := 100 }
        [Event.server { msgType := 0 }, Event.error { msg := "EOF" }] =
      some ({ vcodecRunning := false, frameBufferReq := 1,
              trace := [Effect.recv (Event.server { msgType := 0 }),
                Effect.writeReq { Inc := 1, X := 0, Y := 0, Width := 100, Height := 100 },
                Effect.recv (Event.error { msg := "EOF" }),
                Effect.setRunning false, Effect.sleep 1000000000,
                Effect.encoderClose (vcodec "ffmpeg" 30 "output.mp4"),
                Effect.sleep 5000000000, Effect.connClose, Effect.netClose] },
            Exit.panicked { msg := "EOF" }) :=
  have hF : (30 : Int) ≠ 0 := by decide
  have h : ∀ ev ∈ [Event.server { msgType := 0 }], ev.terminates = false := by
    intro ev hev
    rw [List.mem_singleton.mp hev]
    rfl
  ⟨hF, h,
   (recorder_error_drains_once "ffmpeg" 30 "output.mp4"
      { Width := 100, Height := 100 } [Event.server { msgType := 0 }] []
      { msg := "EOF" } hF h).1.trans rfl⟩

/-! ## Termination signals -/

theorem terminates_of_isTermSignal (ev : Event) (h : ev.isTermSignal = true) :
    ev.terminates = true := by
  cases ev with
  | signal sig => cases sig <;> simp_all [Event.isTermSignal, Event.terminates]
  | _ => simp [Event.isTermSignal] at h

/-- C7: with a frame rate other than 0 (so that the pacer does not end the
process), for every event sequence `evs` that holds two or more termination
signals and whose shutdown is triggered by a signal, that is, `sig` is its
first signal that is not nil and no error is received before it (`pre` holds
only events on which the loop goes on): the loop is left at `sig` with
`return nil`, the events after it (the later signals among them) have no
effect, and `gracefulClose` is executed exactly once: the trace holds one store
of `false` to the flag and one close of the encoder. -/
theorem recorder_signals_drain_once (ffmpegPath : String) (F : Int) (outfile : String)
    (cc : ClientConn) (evs pre post : List Event) (sig : Signal)
    (hF : F ≠ 0)
    (h2 : 2 ≤ evs.countP Event.isTermSignal)
    (hsplit : evs = pre ++ Event.signal (some sig) :: post)
    (hpre : ∀ ev ∈ pre, ev.terminates = false) :
    recorder ffmpegPath F outfile cc evs =
      some ({ vcodecRunning := false,
              frameBufferReq := (dispatchLoop cc initState pre).1.frameBufferReq,
              trace := (dispatchLoop cc initState pre).1.trace ++
                [Effect.recv (Event.signal (some sig)),
                 Effect.setRunning false, Effect.sleep 1000000000,
                 Effect.encoderClose (vcodec ffmpegPath F outfile),
                 Effect.sleep 5000000000, Effect.connClose, Effect.netClose] },
            Exit.returned)
    ∧ ((dispatchLoop cc initState pre).1.trace ++
           [Effect.recv (Event.signal (some sig)),
            Effect.setRunning false, Effect.sleep 1000000000,
            Effect.encoderClose (vcodec ffmpegPath F outfile),
            Effect.sleep 5000000000, Effect.connClose, Effect.netClose]).count
        (Effect.encoderClose (vcodec ffmpegPath F outfile)) = 1
    ∧ ((dispatchLoop cc initState pre).1.trace ++
           [Effect.recv (Event.signal (some sig)),
            Effect.setRunning false, Effect.sleep 1000000000,
            Effect.encoderClose (vcodec ffmpegPath F outfile),
            Effect.sleep 5000000000, Effect.connClose, Effect.netClose]).count
        (Effect.setRunning false) = 1
    ∧ 1 ≤ post.countP Event.isTermSignal := by
  have hD : dispatchLoop cc initState evs =
      ((dispatchLoop cc initState pre).1.emit (Effect.recv (Event.signal (some sig))),
        Exit.returned) := by
    rw [hsplit, dispatchLoop_append cc pre _ initState hpre]
    simp [dispatchLoop, handleEvent]
  have hR := recorder_of_leaves ffmpegPath F outfile cc evs hF (by rw [hD]; simp)
  rw [hD] at hR
  refine ⟨?_, ?_, ?_, ?_⟩
  · rw [hR, runDeferred_eq]; simp [State.emit]
  · have h0 := dispatchLoop_count cc pre initState
      (Effect.encoderClose (vcodec ffmpegPath F outfile)) (by simp) (by simp)
    simp only [List.count_append, h0]
    simp [initState, List.count_cons]
  · have h0 := dispatchLoop_count cc pre initState
      (Effect.setRunning false) (by simp) (by simp)
    simp only [List.count_append, h0]
    simp [initState, List.count_cons]
  · have hzero : pre.countP Event.isTermSignal = 0 := by
      rw [List.countP_eq_zero]
      intro ev hev hs
      have := terminates_of_isTermSignal ev hs
      rw [hpre ev hev] at this
      cases this
    have hone : (if Event.isTermSignal (Event.signal (some sig)) = true then 1 else 0) = 1 := rfl
    rw [hsplit, List.countP_append, List.countP_cons, hzero, hone] at h2
    omega

/-- Instance of C7: a client message, then SIGINT and SIGTERM, at 30 frames
per second. -/
theorem recorder_signals_drain_once_witness :
    (30 : Int) ≠ 0
    ∧ 2 ≤ [Event.client { msgType := 3 }, Event.signal (some Signal.SIGINT),
          Event.signal (some Signal.SIGTERM)].countP Event.isTermSignal
    ∧ (∀ ev ∈ [Event.client { msgType := 3 }], ev.terminates = false)
    ∧ recorder "ffmpeg" 30 "output.mp4" { Width := 100, Height := 100 }
        [Event.client { msgType := 3 }, Event.signal (some Signal.SIGINT),
          Event.signal (some Signal.SIGTERM)] =
      some ({ vcodecRunning := false, frameBufferReq := 0,
              trace := [Effect.recv (Event.client { msgType := 3 }),
                Effect.recv (Event.signal (some Signal.SIGINT)),
                Effect.setRunning false, Effect.sleep 1000000000,
                Effect.encoderClose (vcodec "ffmpeg" 30 "output.mp4"),
                Effect.sleep 5000000000, Effect.connClose, Effect.netClose] },
            Exit.returned) :=
  have hF : (30 : Int) ≠ 0 := by decide
  have hpre : ∀ ev ∈ [Event.client { msgType := 3 }], ev.terminates = false := by
    intro ev hev
    rw [List.mem_singleton.mp hev]
    rfl
  ⟨hF, by decide, hpre,
   (recorder_signals_drain_once "ffmpeg" 30 "output.mp4" { Width := 100, Height := 100 }
      [Event.client { msgType := 3 }, Event.signal (some Signal.SIGINT),
        Event.signal (some Signal.SIGTERM)]
      [Event.client { msgType := 3 }] [Event.signal (some Signal.SIGTERM)] Signal.SIGINT
      hF (by decide) rfl hpre).1.trans rfl⟩

/-! ## One request per completed update -/

theorem wrapInt64_of_range (x : Int) (h1 : -2 ^ 63 ≤ x) (h2 : x < 2 ^ 63) :
    wrapInt64 x = x := by
  unfold wrapInt64
  omega

theorem follow_nil : RequestsFollowCompletions [] := by
  intro pre post r h
  simp at h

theorem follow_snoc (t : List Effect) (x : Effect) (h : RequestsFollowCompletions t)
    (hx : ∀ r, x ≠ Effect.writeReq r) : RequestsFollowCompletions (t ++ [x]) := by
  intro pre post r heq
  rcases List.eq_nil_or_concat post with rfl | ⟨post1, y, rfl⟩
  · have := List.append_inj' heq (by simp)
    exact absurd (List.singleton_inj.mp this.2) (hx r)
  · have heq2 : t ++ [x] = (pre ++ Effect.writeReq r :: post1) ++ [y] := by
      simpa using heq
    have := List.append_inj' heq2 (by simp)
    exact h pre post1 r this.1

theorem follow_snoc_request (t : List Effect) (m : ServerMessage)
    (r0 : FramebufferUpdateRequest)
    (h : RequestsFollowCompletions (t ++ [Effect.recv (Event.server m)]))
    (hm : m.msgType = FramebufferUpdateMsgType) :
    RequestsFollowCompletions (t ++ [Effect.recv (Event.server m)] ++ [Effect.writeReq r0]) := by
  intro pre post r heq
  rcases List.eq_nil_or_concat post with rfl | ⟨post1, y, rfl⟩
  · have := List.append_inj' heq (by simp)
    exact ⟨t, m, this.1.symm, hm⟩
  · have heq2 : t ++ [Effect.recv (Event.server m)] ++ [Effect.writeReq r0] =
        (pre ++ Effect.writeReq r :: post1) ++ [y] := by
      simpa using heq
    have := List.append_inj' heq2 (by simp)
    exact h pre post1 r this.1

theorem handleEvent_trace (cc : ClientConn) (st : State) (ev : Event) :
    (∃ m, ev = Event.server m ∧ m.msgType = FramebufferUpdateMsgType
        ∧ (handleEvent cc st ev).1.trace = st.trace ++ [Effect.recv (Event.server m)] ++
            [Effect.writeReq
              { Inc := 1, X := 0, Y := 0, Width := cc.Width, Height := cc.Height }]
        ∧ (handleEvent cc st ev).1.frameBufferReq = wrapInt64 (st.frameBufferReq + 1))
    ∨ ((∀ m, ev = Event.server m → m.msgType ≠ FramebufferUpdateMsgType)
        ∧ (handleEvent cc st ev).1.trace = st.trace ++ [Effect.recv ev]
        ∧ (handleEvent cc st ev).1.frameBufferReq = st.frameBufferReq) := by
  cases ev with
  | server msg =>
    by_cases hm : msg.msgType = FramebufferUpdateMsgType
    · left
      exact ⟨msg, rfl, hm, by simp [handleEvent, State.emit, hm],
        by simp [handleEvent, State.emit, hm]⟩
    · right
      refine ⟨?_, by simp [handleEvent, State.emit, hm], by simp [handleEvent, State.emit, hm]⟩
      intro m h
      cases h
      exact hm
  | signal sig =>
    right
    cases sig <;> simp [handleEvent, State.emit]
  | error err => right; simp [handleEvent, State.emit]
  | client msg => right; simp [handleEvent, State.emit]

theorem handleEvent_invariant (cc : ClientConn) (st : State) (ev : Event)
    (hQ : RequestsFollowCompletions st.trace)
    (hlen : (requests st.trace).length = (completions st.trace).length) :
    RequestsFollowCompletions (handleEvent cc st ev).1.trace
    ∧ (requests (handleEvent cc st ev).1.trace).length =
        (completions (handleEvent cc st ev).1.trace).length := by
  rcases handleEvent_trace cc st ev with ⟨m, _, hm, ht, _⟩ | ⟨hne, ht, _⟩
  · rw [ht]
    refine ⟨follow_snoc_request _ m _ (follow_snoc _ _ hQ (by simp)) hm, ?_⟩
    simp [requests_append, completions_append, requests, completions, hm, hlen]
  · rw [ht]
    refine ⟨follow_snoc _ _ hQ (by simp), ?_⟩
    rw [requests_append, completions_append]
    cases ev with
    | server msg =>
      have := hne msg rfl
      simp [requests, completions, this, hlen]
    | _ => simp [requests, completions, hlen]

theorem handleEvent_counter (cc : ClientConn) (st : State) (ev : Event) (n : Nat)
    (hctr : st.frameBufferReq = ((completions st.trace).length : Int))
    (hn : (completions st.trace).length + (n + 1) < 2 ^ 63) :
    (handleEvent cc st ev).1.frameBufferReq =
        ((completions (handleEvent cc st ev).1.trace).length : Int)
    ∧ (completions (handleEvent cc st ev).1.trace).length + n < 2 ^ 63 := by
  rcases handleEvent_trace cc st ev with ⟨m, _, hm, ht, hc⟩ | ⟨hne, ht, hc⟩
  · rw [ht, hc, hctr]
    have hl : (completions (st.trace ++ [Effect.recv (Event.server m)] ++
        [Effect.writeReq
          { Inc := 1, X := 0, Y := 0, Width := cc.Width, Height := cc.Height }])).length
        = (completions st.trace).length + 1 := by
      simp [completions_append, completions, hm]
    rw [hl]
    refine ⟨?_, by omega⟩
    rw [wrapInt64_of_range _ (by omega) (by omega)]
    push_cast
    rfl
  · rw [ht, hc, hctr]
    have hl : (completions (st.trace ++ [Effect.recv ev])).length
        = (completions st.trace).length := by
      rw [completions_append]
      cases ev with
      | server msg =>
        have := hne msg rfl
        simp [completions, this]
      | _ => simp [completions]
    rw [hl]
    exact ⟨rfl, by omega⟩

theorem dispatchLoop_cons_state (cc : ClientConn) (st : State) (ev : Event)
    (rest : List Event) :
    (ev.terminates = false
      ∧ dispatchLoop cc st (ev :: rest) = dispatchLoop cc (handleEvent cc st ev).1 rest)
    ∨ (ev.terminates = true
      ∧ (dispatchLoop cc st (ev :: rest)).1 = (handleEvent cc st ev).1) := by
  cases hT : ev.terminates with
  | false => exact Or.inl ⟨rfl, dispatchLoop_cons_continue cc st ev rest hT⟩
  | true =>
    obtain ⟨x, hx, hx2, _⟩ := dispatchLoop_cons_leave cc st ev rest hT
    exact Or.inr ⟨rfl, by rw [hx, hx2]⟩

theorem dispatchLoop_invariant (cc : ClientConn) (evs : List Event) (st : State)
    (hQ : RequestsFollowCompletions st.trace)
    (hlen : (requests st.trace).length = (completions st.trace).length) :
    RequestsFollowCompletions (dispatchLoop cc st evs).1.trace
    ∧ (requests (dispatchLoop cc st evs).1.trace).length =
        (completions (dispatchLoop cc st evs).1.trace).length := by
  induction evs generalizing st with
  | nil => exact ⟨hQ, hlen⟩
  | cons ev evs ih =>
    have hstep := handleEvent_invariant cc st ev hQ hlen
    rcases dispatchLoop_cons_state cc st ev evs with ⟨_, h⟩ | ⟨_, h⟩
    · rw [h]; exact ih _ hstep.1 hstep.2
    · rw [h]; exact hstep

theorem dispatchLoop_counter (cc : ClientConn) (evs : List Event) (st : State)
    (hctr : st.frameBufferReq = ((completions st.trace).length : Int))
    (hn : (completions st.trace).length + evs.length < 2 ^ 63) :
    (dispatchLoop cc st evs).1.frameBufferReq =
        ((completions (dispatchLoop cc st evs).1.trace).length : Int) := by
  induction evs generalizing st with
  | nil => exact hctr
  | cons ev evs ih =>
    have hstep := handleEvent_counter cc st ev evs.length hctr (by simpa using hn)
    rcases dispatchLoop_cons_state cc st ev evs with ⟨_, h⟩ | ⟨_, h⟩
    · rw [h]; exact ih _ hstep.1 hstep.2
    · rw [h]; exact hstep.1

theorem dispatchLoop_no_completion (cc : ClientConn) (evs : List Event) (st : State)
    (h : ∀ m, Event.server m ∈ evs → m.msgType ≠ FramebufferUpdateMsgType) :
    requests (dispatchLoop cc st evs).1.trace = requests st.trace := by
  induction evs generalizing st with
  | nil => rfl
  | cons ev evs ih =>
    have hrest : ∀ m, Event.server m ∈ evs → m.msgType ≠ FramebufferUpdateMsgType :=
      fun m hm => h m (List.mem_cons_of_mem _ hm)
    have hstep : requests (handleEvent cc st ev).1.trace = requests st.trace := by
      rcases handleEvent_trace cc st ev with ⟨m, hev, hm, _, _⟩ | ⟨_, ht, _⟩
      · exact absurd hm (h m (by rw [hev]; exact List.mem_cons_self _ _))
      · rw [ht, requests_append]
        cases ev <;> simp [requests]
    rcases dispatchLoop_cons_state cc st ev evs with ⟨_, h2⟩ | ⟨_, h2⟩
    · rw [h2, ih _ hrest, hstep]
    · rw [h2, hstep]

/-- C6: after every finite sequence of events (so after every prefix of a
run) of the dispatch loop started by `recorder`: the number of requests
written equals the number of framebuffer update messages received; the counter
`frameBufferReq` equals that number (as long as a 64 bit `int` cannot have
overflowed); every request in the trace comes immediately after the receipt of
a framebuffer update message, so no two requests are issued without a
completion between them; and without any framebuffer update message no
request is written. -/
theorem dispatchLoop_one_request_per_completion (cc : ClientConn) (evs : List Event) :
    (requests (dispatchLoop cc initState evs).1.trace).length =
        (completions (dispatchLoop cc initState evs).1.trace).length
    ∧ (evs.length < 2 ^ 63 →
        (dispatchLoop cc initState evs).1.frameBufferReq =
          ((completions (dispatchLoop cc initState evs).1.trace).length : Int))
    ∧ (∀ (pre post : List Effect) (r : FramebufferUpdateRequest),
        (dispatchLoop cc initState evs).1.trace = pre ++ Effect.writeReq r :: post →
        ∃ (pre2 : List Effect) (m : ServerMessage),
          pre = pre2 ++ [Effect.recv (Event.server m)]
            ∧ m.msgType = FramebufferUpdateMsgType)
    ∧ ((∀ m, Event.server m ∈ evs → m.msgType ≠ FramebufferUpdateMsgType) →
        requests (dispatchLoop cc initState evs).1.trace = []) := by
  have hI := dispatchLoop_invariant cc evs initState follow_nil rfl
  refine ⟨hI.2, ?_, hI.1, ?_⟩
  · intro hlen
    exact dispatchLoop_counter cc evs initState rfl (by simpa [initState, completions] using hlen)
  · intro h
    exact dispatchLoop_no_completion cc evs initState h

/-- Instances of C6: two framebuffer updates among three events leave the
counter at 2; a client message and a bell message cause no request. -/
theorem dispatchLoop_one_request_per_completion_witness :
    (dispatchLoop { Width := 100, Height := 100 } initState
        [Event.server { msgType := 0 }, Event.client { msgType := 3 },
          Event.server { msgType := 0 }]).1.frameBufferReq = 2
    ∧ requests (dispatchLoop { Width := 100, Height := 100 } initState
        [Event.client { msgType := 3 }, Event.server { msgType := 2 }]).1.trace = [] :=
  ⟨((dispatchLoop_one_request_per_completion { Width := 100, Height := 100 }
      [Event.server { msgType := 0 }, Event.client { msgType := 3 },
        Event.server { msgType := 0 }]).2.1 (by norm_num)).trans (by decide),
   (dispatchLoop_one_request_per_completion { Width := 100, Height := 100 }
      [Event.client { msgType := 3 }, Event.server { msgType := 2 }]).2.2.2
      (by
        intro m hm
        simp at hm
        subst hm
        decide)⟩

/-! ## The frame pacer -/

theorem period_eq_none_iff (F : Int) : period F = none ↔ F = 0 := by
  unfold period
  by_cases h : F = 0 <;> simp [h]

theorem period_of_ne_zero (F : Int) (h : F ≠ 0) :
    period F = some (Int.tdiv 1000 F * Millisecond) := by
  simp [period, h]

theorem period_natCast (F : Nat) (h : 1 ≤ F) :
    period (F : Int) = some (((1000 / F : Nat) : Int) * 1000000) := by
  have hne : (F : Int) ≠ 0 := by omega
  rw [period_of_ne_zero _ hne]
  have : Int.tdiv 1000 (F : Int) = ((1000 / F : Nat) : Int) := (Int.ofNat_tdiv 1000 F).symm
  rw [this]
  rfl

/-- The product of line 177 stays inside the `int64` range. -/
theorem period_int64 (F : Int) (d : Int) (h : period F = some d) :
    -2 ^ 63 ≤ d ∧ d < 2 ^ 63 := by
  by_cases hF : F = 0
  · simp [period, hF] at h
  · rw [period_of_ne_zero F hF] at h
    have hd : Int.tdiv 1000 F * (1000000 : Int) = d := Option.some.inj h
    have habs : (Int.tdiv 1000 F).natAbs ≤ 1000 := by
      rw [Int.natAbs_tdiv]
      exact Nat.div_le_self _ _
    have hlo : -1000 ≤ Int.tdiv 1000 F := by omega
    have hhi : Int.tdiv 1000 F ≤ 1000 := by omega
    constructor <;> omega

theorem pacerLoop_stopped (e : Encoder) (o : TickObs) (rest : List TickObs)
    (h : o.vcodecRunning = false) :
    pacerTick e o = ([], TickExit.stopped)
      ∧ pacerLoop e (o :: rest) = ([], TickExit.stopped) := by
  have ht : pacerTick e o = ([], TickExit.stopped) := by simp [pacerTick, h]
  exact ⟨ht, by simp [pacerLoop, ht]⟩

theorem pacerLoop_divideByZero (e : Encoder) (o : TickObs) (rest : List TickObs)
    (h : o.vcodecRunning = true) (hF : e.Framerate = 0) :
    pacerTick e o = ([Effect.encode o.image], TickExit.divideByZero)
      ∧ pacerLoop e (o :: rest) = ([Effect.encode o.image], TickExit.divideByZero) := by
  have ht : pacerTick e o = ([Effect.encode o.image], TickExit.divideByZero) := by
    simp [pacerTick, h, period, hF]
  exact ⟨ht, by simp [pacerLoop, ht]⟩

theorem pacerLoop_next (e : Encoder) (o : TickObs) (rest : List TickObs) (T : Duration)
    (h : o.vcodecRunning = true) (hT : period e.Framerate = some T) :
    pacerTick e o =
        (Effect.encode o.image ::
          (if 0 < T - (o.timeNow - o.timeStart)
            then [Effect.sleep (T - (o.timeNow - o.timeStart))] else []),
         TickExit.next)
      ∧ pacerLoop e (o :: rest) =
          ((pacerTick e o).1 ++ (pacerLoop e rest).1, (pacerLoop e rest).2) := by
  have ht : pacerTick e o =
        (Effect.encode o.image ::
          (if 0 < T - (o.timeNow - o.timeStart)
            then [Effect.sleep (T - (o.timeNow - o.timeStart))] else []),
         TickExit.next) := by
    have e1 : o.timeStart + T - o.timeNow = T - (o.timeNow - o.timeStart) := by ring
    by_cases hpos : 0 < T - (o.timeNow - o.timeStart)
    · simp [pacerTick, h, hT, e1, hpos]
    · simp [pacerTick, h, hT, e1, hpos]
  refine ⟨ht, ?_⟩
  simp [pacerLoop, ht]

/-- C3: in every iteration of the pacer that reads the flag as `false` the
loop ends and nothing is submitted; every iteration that reads it as `true`
submits exactly one image, the canvas as read in that iteration, whatever the
frame rate and the clock; so over any run the images submitted are those of
the iterations that read `true` (all up to the first `false`; the first only
when the frame rate is 0), and their number is the number of such iterations,
whether consecutive images differ or not; the pacer reads nothing of the
update messages. -/
theorem pacer_one_encode_per_tick (e : Encoder) (obs : List TickObs) :
    (∀ (o : TickObs) (rest : List TickObs),
        pacerTick e { o with vcodecRunning := false } = ([], TickExit.stopped)
          ∧ pacerLoop e ({ o with vcodecRunning := false } :: rest) = ([], TickExit.stopped))
    ∧ (∀ o : TickObs, encodes (pacerTick e { o with vcodecRunning := true }).1 = [o.image])
    ∧ encodes (pacerLoop e obs).1 =
        ((if e.Framerate = 0 then obs.take 1 else obs).takeWhile
          (fun o => o.vcodecRunning)).map (fun o => o.image)
    ∧ (encodes (pacerLoop e obs).1).length =
        ((if e.Framerate = 0 then obs.take 1 else obs).takeWhile
          (fun o => o.vcodecRunning)).length := by
  have h3 : encodes (pacerLoop e obs).1 =
        ((if e.Framerate = 0 then obs.take 1 else obs).takeWhile
          (fun o => o.vcodecRunning)).map (fun o => o.image) := by
    by_cases hF : e.Framerate = 0
    · simp only [hF, if_true]
      cases obs with
      | nil => rfl
      | cons o rest =>
        cases hrun : o.vcodecRunning with
        | false => simp [(pacerLoop_stopped e o rest hrun).2, encodes, hrun]
        | true => simp [(pacerLoop_divideByZero e o rest hrun hF).2, encodes, hrun]
    · simp only [hF, if_false]
      obtain ⟨T, hT⟩ : ∃ T, period e.Framerate = some T :=
        ⟨_, period_of_ne_zero _ hF⟩
      induction obs with
      | nil => rfl
      | cons o rest ih =>
        cases hrun : o.vcodecRunning with
        | false => simp [(pacerLoop_stopped e o rest hrun).2, encodes, hrun]
        | true =>
          obtain ⟨ht, hl⟩ := pacerLoop_next e o rest T hrun hT
          rw [hl, ht]
          simp only [encodes_append, ih]
          by_cases hpos : 0 < T - (o.timeNow - o.timeStart) <;>
            simp [encodes, hrun, hpos]
  refine ⟨?_, ?_, h3, ?_⟩
  · intro o rest
    exact pacerLoop_stopped e _ rest rfl
  · intro o
    by_cases hF : e.Framerate = 0
    · rw [(pacerLoop_divideByZero e { o with vcodecRunning := true } [] rfl hF).1]
      rfl
    · rw [(pacerLoop_next e { o with vcodecRunning := true } [] _ rfl
        (period_of_ne_zero _ hF)).1]
      simp only []
      split_ifs <;> rfl
  · rw [h3, List.length_map]

/-- C8: in every iteration that reads the flag as `true`, with start time
`s = o.timeStart`, period `T` and time `n = o.timeNow` read after the
submission, the pacer submits the image once and then sleeps exactly
`T - (n - s)` when that is positive and does not sleep otherwise; in both
cases the loop goes on with the next iteration, whose effects follow. -/
theorem pacerTick_sleeps_remainder (e : Encoder) (o : TickObs) (rest : List TickObs)
    (T : Duration) (hT : period e.Framerate = some T) (hrun : o.vcodecRunning = true) :
    pacerTick e o =
        (Effect.encode o.image ::
          (if 0 < T - (o.timeNow - o.timeStart)
            then [Effect.sleep (T - (o.timeNow - o.timeStart))] else []),
         TickExit.next)
    ∧ encodes (pacerTick e o).1 = [o.image]
    ∧ (pacerLoop e (o :: rest)).1 = (pacerTick e o).1 ++ (pacerLoop e rest).1
    ∧ (pacerLoop e (o :: rest)).2 = (pacerLoop e rest).2 := by
  obtain ⟨ht, hl⟩ := pacerLoop_next e o rest T hrun hT
  refine ⟨ht, ?_, by rw [hl], by rw [hl]⟩
  rw [ht]
  simp only []
  split_ifs <;> rfl

/-- Instance of C8: at 30 frames per second a tick that took 5 ms sleeps 28 ms. -/
theorem pacerTick_sleeps_remainder_witness :
    period (vcodec "ffmpeg" 30 "output.mp4").Framerate = some 33000000
    ∧ pacerTick (vcodec "ffmpeg" 30 "output.mp4")
        { timeStart := 0, vcodecRunning := true, image := { pixels := [7] },
          timeNow := 5000000 } =
      ([Effect.encode { pixels := [7] }, Effect.sleep 28000000], TickExit.next) :=
  ⟨by decide,
   (pacerTick_sleeps_remainder (vcodec "ffmpeg" 30 "output.mp4")
      { timeStart := 0, vcodecRunning := true, image := { pixels := [7] },
        timeNow := 5000000 } [] 33000000 (by decide) rfl).1.trans (by decide)⟩

theorem pacerLoop_no_sleep (e : Encoder) (obs : List TickObs)
    (hT : period e.Framerate = some 0)
    (hclock : ∀ o ∈ obs, o.timeStart ≤ o.timeNow) (d : Duration) :
    Effect.sleep d ∉ (pacerLoop e obs).1 := by
  induction obs with
  | nil => simp [pacerLoop]
  | cons o rest ih =>
    have hrest : ∀ o1 ∈ rest, o1.timeStart ≤ o1.timeNow :=
      fun o1 h1 => hclock o1 (List.mem_cons_of_mem _ h1)
    cases hrun : o.vcodecRunning with
    | false => simp [(pacerLoop_stopped e o rest hrun).2]
    | true =>
      obtain ⟨ht, hl⟩ := pacerLoop_next e o rest 0 hrun hT
      have ho : (0 : Int) ≤ o.timeNow - o.timeStart :=
        Int.sub_nonneg_of_le (hclock o (List.mem_cons_self _ _))
      have hneg : ¬ (0 < (0 : Int) - (o.timeNow - o.timeStart)) := by omega
      rw [hl, ht]
      simp only [hneg, if_false]
      intro hmem
      rcases List.mem_append.mp hmem with h1 | h1
      · simp at h1
      · exact ih hrest h1

/-- C10: the period of line 177 is undefined (division by zero) exactly when
the frame rate is 0; for every `F ≥ 1` it is `floor(1000 / F)` whole
milliseconds, which is at least one millisecond exactly when `F ≤ 1000` and is
0 when `F > 1000`; and with `F > 1000` and a clock that does not run backwards
the pacer performs no sleep at all. -/
theorem period_truncates :
    (∀ F : Int, period F = none ↔ F = 0)
    ∧ (∀ F : Nat, 1 ≤ F →
        period (F : Int) = some (((⌊(1000 : ℚ) / (F : ℚ)⌋₊ : Nat) : Int) * Millisecond)
        ∧ period (F : Int) = some (((1000 / F : Nat) : Int) * 1000000)
        ∧ ((1000000 : Int) ≤ ((1000 / F : Nat) : Int) * 1000000 ↔ F ≤ 1000)
        ∧ (1000 < F → period (F : Int) = some 0))
    ∧ (∀ (F : Nat) (e : Encoder) (obs : List TickObs), 1000 < F → e.Framerate = (F : Int) →
        (∀ o ∈ obs, o.timeStart ≤ o.timeNow) →
        ∀ d : Duration, Effect.sleep d ∉ (pacerLoop e obs).1) := by
  have hzero : ∀ F : Nat, 1000 < F → period (F : Int) = some 0 := by
    intro F hF
    rw [period_natCast F (by omega), Nat.div_eq_of_lt hF]
    rfl
  refine ⟨period_eq_none_iff, ?_, ?_⟩
  · intro F hF
    refine ⟨?_, period_natCast F hF, ?_, hzero F⟩
    · have hfl : ⌊(1000 : ℚ) / (F : ℚ)⌋₊ = 1000 / F := by
        have := Nat.floor_div_eq_div (α := ℚ) 1000 F
        simpa using this
      rw [hfl, period_natCast F hF]
      rfl
    · constructor
      · intro h
        by_contra hgt
        rw [Nat.div_eq_of_lt (by omega)] at h
        simp at h
      · intro h
        have : 1 ≤ 1000 / F := (Nat.one_le_div_iff (by omega)).mpr h
        have h2 : (1 : Int) ≤ ((1000 / F : Nat) : Int) := by exact_mod_cast this
        omega
  · intro F e obs hF he hclock d
    exact pacerLoop_no_sleep e obs (by rw [he]; exact hzero F hF) hclock d

/-- Instance of C10: at 1001 frames per second the period is 0 and a tick
does not sleep. -/
theorem period_truncates_witness :
    period ((1001 : Nat) : Int) = some 0
    ∧ Effect.sleep 1 ∉
        (pacerLoop (vcodec "ffmpeg" 1001 "output.mp4")
          [{ timeStart := 0, vcodecRunning := true, image := { pixels := [7] },
             timeNow := 5000000 }]).1 :=
  ⟨(period_truncates.2.1 1001 (by decide)).2.2.2 (by decide),
   period_truncates.2.2 1001 (vcodec "ffmpeg" 1001 "output.mp4")
     [{ timeStart := 0, vcodecRunning := true, image := { pixels := [7] },
        timeNow := 5000000 }] (by decide) rfl
     (by
       intro o ho
       rw [List.mem_singleton.mp ho]
       decide) 1⟩

/-! ## The period against the frame rate -/

/-- C4, as stated, fails: at 30 frames per second the period is 33 ms, and
33 000 000 ns is not 1/30 s; at 60 it is 16 ms. -/
theorem period_30_not_exact :
    period 30 = some 33000000 ∧ period 60 = some 16000000
    ∧ ¬ ∃ T : Duration, period 30 = some T ∧ (T : ℚ) / 1000000000 = 1 / (30 : ℚ) := by
  refine ⟨by decide, by decide, ?_⟩
  rintro ⟨T, hT, hq⟩
  have h30 : period 30 = some 33000000 := by decide
  rw [h30] at hT
  have hT2 : (33000000 : Int) = T := Option.some.inj hT
  rw [← hT2] at hq
  norm_num at hq

/-- C4, amended: for every positive frame rate `F` the period is
`floor(1000 / F)` whole milliseconds; as a fraction of a second (10^9 ns)
it equals `1 / F` exactly when `F` divides 1000. -/
theorem period_exact_iff (F : Nat) (hF : 0 < F) :
    ∃ T : Duration, period (F : Int) = some T
      ∧ T = ((1000 / F : Nat) : Int) * Millisecond
      ∧ ((T : ℚ) / 1000000000 = 1 / (F : ℚ) ↔ F ∣ 1000) := by
  refine ⟨((1000 / F : Nat) : Int) * 1000000, period_natCast F hF, rfl, ?_⟩
  have hFq : (F : ℚ) ≠ 0 := by exact_mod_cast (Nat.pos_iff_ne_zero.mp hF)
  have hdvd : (1000 / F) * F = 1000 ↔ F ∣ 1000 :=
    ⟨fun h => Dvd.intro_left _ h, fun h => Nat.div_mul_cancel h⟩
  rw [← hdvd]
  generalize 1000 / F = q
  have hcast : (((q : Int) * 1000000 : Int) : ℚ) = (q : ℚ) * 1000000 := by push_cast; ring
  rw [hcast]
  constructor
  · intro h
    have h1 : (q : ℚ) * (F : ℚ) = 1000 := by
      field_simp at h
      linarith
    exact_mod_cast h1
  · intro h2
    have h1 : (q : ℚ) * (F : ℚ) = 1000 := by exact_mod_cast h2
    field_simp
    linarith

/-- Instance of C4 (amended): at 25 frames per second the period is 40 ms. -/
theorem period_exact_iff_witness :
    0 < 25 ∧ period ((25 : Nat) : Int) = some 40000000 :=
  ⟨by decide,
   by
     obtain ⟨T, hT, hval, _⟩ := period_exact_iff 25 (by decide)
     rw [hT, hval]
     rfl⟩

end VncRecorder
